import Mathlib

/-!
Verification of the Apple Health data parser (`apple_health_data_parser.py`)
against its natural-language specification.

The embedding models strings as lists of characters (`Str`), the sanitizer
`preprocess_to_temp_file` as a function over lists of lines, and the
flattener `xml_to_csv` as a function over an element tree, mirroring the
semantics of `xml.etree.ElementTree.iterparse` (an end event per element,
children before parents, with `elem.clear()` emptying the element's
attribute mapping in place) and of the pandas operations used
(`pd.DataFrame` over a list of dicts, `str.replace`, column `reindex`,
`sort_values` descending with missing values last).
-/

namespace AppleHealth

/-- A Python string, modelled as its list of characters. -/
abbrev Str := List Char

/-- The control character `\x0b` stripped by the sanitizer. -/
def invisibleChar : Char := Char.ofNat 11

/-- `strip_invisible_character` (line 55-56): `line.replace("\x0b", "")`. -/
def stripInvisible (l : Str) : Str := l.filter (fun c => c ≠ invisibleChar)

/-- Boolean test that `pat` is a prefix of a character list. -/
def isPrefixB : Str → Str → Bool
  | [], _ => true
  | _ :: _, [] => false
  | a :: as, b :: bs => a == b && isPrefixB as bs

/-- Boolean substring containment, the semantics of Python `pat in line`. -/
def containsSeq (pat : Str) : Str → Bool
  | [] => isPrefixB pat []
  | c :: rest => isPrefixB pat (c :: rest) || containsSeq pat rest

/-- The doctype-open marker `<!DOCTYPE` (line 44). -/
def dtdOpen : Str := "<!DOCTYPE".data

/-- The doctype-close marker `]>` (line 49). -/
def dtdClose : Str := "]>".data

/-- The line loop of `preprocess_to_temp_file` (lines 42-50), with the
`skip_dtd` flag threaded explicitly.  Note that in the source the close
marker is tested on the rebound (stripped) line when the line was emitted,
and on the raw line otherwise. -/
def preprocess : Bool → List Str → List Str
  | _, [] => []
  | skip, l :: ls =>
    let skip1 := skip || containsSeq dtdOpen l
    if skip1 then
      preprocess (if containsSeq dtdClose l then false else skip1) ls
    else
      let l2 := stripInvisible l
      l2 :: preprocess (if containsSeq dtdClose l2 then false else skip1) ls

/-- The sanitizer: `preprocess_to_temp_file` on a whole document, started
with `skip_dtd = False` (line 42). -/
def sanitize (doc : List Str) : List Str := preprocess false doc

-- Scratch checks of the embedding on concrete inputs.
example : sanitize ["a".data, "<!DOCTYPE x [".data, "junk".data, "]>".data, "b".data]
    = ["a".data, "b".data] := by decide

example : stripInvisible ('a' :: invisibleChar :: ['b']) = ['a', 'b'] := by decide

/-- Stripping removes every occurrence of the control character. -/
theorem invisible_not_mem_strip (l : Str) : invisibleChar ∉ stripInvisible l := by
  intro h
  have := List.of_mem_filter h
  simp at this

/-- Stripping a line already free of the control character leaves it unchanged. -/
theorem strip_of_not_mem {l : Str} (h : invisibleChar ∉ l) : stripInvisible l = l := by
  unfold stripInvisible
  apply List.filter_eq_self.mpr
  intro a ha
  simp only [decide_eq_true_eq]
  intro hc
  exact h (hc ▸ ha)

/-- Every line in the sanitizer's output is free of the control character. -/
theorem preprocess_no_invisible :
    ∀ (flag : Bool) (doc : List Str), ∀ l ∈ preprocess flag doc, invisibleChar ∉ l := by
  intro flag doc
  induction doc generalizing flag with
  | nil => intro l hl; simp [preprocess] at hl
  | cons x xs ih =>
    intro l hl
    simp only [preprocess] at hl
    by_cases hs : (flag || containsSeq dtdOpen x) = true
    · rw [if_pos hs] at hl
      exact ih _ l hl
    · rw [if_neg hs] at hl
      rcases List.mem_cons.mp hl with h | h
      · rw [h]; exact invisible_not_mem_strip x
      · exact ih _ l h

/-- While the flag is clear, lines without the open marker are emitted
(stripped) one for one; the loop distributes over a marker-free leading
segment of the document. -/
theorem preprocess_false_append {pre : List Str}
    (hpre : ∀ l ∈ pre, containsSeq dtdOpen l = false) (rest : List Str) :
    preprocess false (pre ++ rest) = pre.map stripInvisible ++ preprocess false rest := by
  induction pre with
  | nil => simp
  | cons x xs ih =>
    have hx : containsSeq dtdOpen x = false := hpre x (List.mem_cons_self x xs)
    simp only [List.cons_append, preprocess, Bool.false_or, hx, if_neg Bool.false_ne_true,
      List.map_cons, List.append_eq]
    have hflag : (if containsSeq dtdClose (stripInvisible x) then false else false) = false := by
      cases containsSeq dtdClose (stripInvisible x) <;> rfl
    rw [hflag, ih (fun l hl => hpre l (List.mem_cons_of_mem x hl))]

/-- A document with no doctype-open marker is passed through, each line
stripped of the control character. -/
theorem preprocess_false_no_open {doc : List Str}
    (h : ∀ l ∈ doc, containsSeq dtdOpen l = false) :
    preprocess false doc = doc.map stripInvisible := by
  have := preprocess_false_append h []
  simpa [preprocess] using this

/-- While the flag is set, lines are suppressed until the first close
marker, which resumes copying. -/
theorem preprocess_true_until_close {mid : List Str} {closeL : Str}
    (hmid : ∀ l ∈ mid, containsSeq dtdClose l = false)
    (hclose : containsSeq dtdClose closeL = true) (post : List Str) :
    preprocess true (mid ++ closeL :: post) = preprocess false post := by
  induction mid with
  | nil =>
    simp only [List.nil_append, preprocess, Bool.true_or, if_pos, hclose, if_true]
  | cons x xs ih =>
    have hx : containsSeq dtdClose x = false := hmid x (List.mem_cons_self x xs)
    simp only [List.cons_append, preprocess, Bool.true_or, if_pos, hx, if_false]
    exact ih (fun l hl => hmid l (List.mem_cons_of_mem x hl))

/-- While the flag is set and no close marker ever appears, every
remaining line is suppressed. -/
theorem preprocess_true_no_close {ls : List Str}
    (h : ∀ l ∈ ls, containsSeq dtdClose l = false) :
    preprocess true ls = [] := by
  induction ls with
  | nil => rfl
  | cons x xs ih =>
    have hx : containsSeq dtdClose x = false := h x (List.mem_cons_self x xs)
    simp only [preprocess, Bool.true_or, if_pos, hx, if_false]
    exact ih (fun l hl => h l (List.mem_cons_of_mem x hl))

/-- A list of lines each free of the control character is fixed by
line-wise stripping. -/
theorem map_strip_of_no_invisible :
    ∀ (xs : List Str), (∀ l ∈ xs, invisibleChar ∉ l) → xs.map stripInvisible = xs := by
  intro xs h
  induction xs with
  | nil => rfl
  | cons x xs ih =>
    rw [List.map_cons, strip_of_not_mem (h x (List.mem_cons_self x xs)),
      ih (fun l hl => h l (List.mem_cons_of_mem x hl))]

/-- C4: for a document consisting of a marker-free prelude, a doctype-open
line, a close-free middle, the first close-marker line, and a marker-free
remainder, the sanitizer omits every line from the open-marker line through
the close-marker line inclusive, emits every other line stripped of the
control character but otherwise verbatim, and the control character never
appears in the output. -/
theorem C4_doctype_elision (pre mid post : List Str) (openL closeL : Str)
    (hpre : ∀ l ∈ pre, containsSeq dtdOpen l = false)
    (hopen : containsSeq dtdOpen openL = true)
    (hopenc : containsSeq dtdClose openL = false)
    (hmid : ∀ l ∈ mid, containsSeq dtdClose l = false)
    (hclose : containsSeq dtdClose closeL = true)
    (hpost : ∀ l ∈ post, containsSeq dtdOpen l = false) :
    sanitize (pre ++ openL :: (mid ++ closeL :: post)) = (pre ++ post).map stripInvisible
    ∧ ∀ l ∈ sanitize (pre ++ openL :: (mid ++ closeL :: post)), invisibleChar ∉ l := by
  constructor
  · unfold sanitize
    rw [preprocess_false_append hpre]
    have hstep : preprocess false (openL :: (mid ++ closeL :: post))
        = preprocess true (mid ++ closeL :: post) := by
      simp [preprocess, hopen, hopenc]
    rw [hstep, preprocess_true_until_close hmid hclose,
      preprocess_false_no_open hpost, List.map_append]
  · exact preprocess_no_invisible false _

/-- Closed instance of the doctype-elision theorem on a concrete document. -/
theorem C4_doctype_elision_witness :
    sanitize (["a".data] ++ "<!DOCTYPE HealthData [".data ::
        (["<!ENTITY x".data] ++ "]>".data :: [('b' :: invisibleChar :: [])]))
      = (["a".data] ++ [('b' :: invisibleChar :: [])]).map stripInvisible
    ∧ ∀ l ∈ sanitize (["a".data] ++ "<!DOCTYPE HealthData [".data ::
        (["<!ENTITY x".data] ++ "]>".data :: [('b' :: invisibleChar :: [])])),
        invisibleChar ∉ l :=
  C4_doctype_elision ["a".data] ["<!ENTITY x".data] [('b' :: invisibleChar :: [])]
    "<!DOCTYPE HealthData [".data "]>".data
    (by decide) (by decide) (by decide) (by decide) (by decide) (by decide)

/-- C9: an unterminated doctype-open marker suppresses its own line and
every later line: the sanitizer output is just the (stripped) prelude. -/
theorem C9_unterminated_doctype (pre post : List Str) (openL : Str)
    (hpre : ∀ l ∈ pre, containsSeq dtdOpen l = false)
    (hopen : containsSeq dtdOpen openL = true)
    (hopenc : containsSeq dtdClose openL = false)
    (hpost : ∀ l ∈ post, containsSeq dtdClose l = false) :
    sanitize (pre ++ openL :: post) = pre.map stripInvisible := by
  unfold sanitize
  rw [preprocess_false_append hpre]
  have hstep : preprocess false (openL :: post) = preprocess true post := by
    simp [preprocess, hopen, hopenc]
  rw [hstep, preprocess_true_no_close hpost, List.append_nil]

/-- Closed instance of the unterminated-doctype theorem. -/
theorem C9_unterminated_doctype_witness :
    sanitize (["a".data] ++ "<!DOCTYPE HealthData [".data :: ["b".data, "c".data])
      = ["a".data].map stripInvisible :=
  C9_unterminated_doctype ["a".data] ["b".data, "c".data] "<!DOCTYPE HealthData [".data
    (by decide) (by decide) (by decide) (by decide)

/-- A document on which the sanitizer is not idempotent: stripping the
control character out of `<!DOC\x0bTYPE` creates a doctype-open marker that
only the second pass sees. -/
def brokenOpenDoc : List Str :=
  [("<!DOC".data ++ invisibleChar :: "TYPE health [".data), "data".data]

/-- C5 counterexample: the sanitizer is not idempotent.  On
`brokenOpenDoc` the first pass emits a line that the second pass treats as
an (unterminated) doctype-open marker, so the second pass returns a
different (empty) document. -/
theorem C5_idempotence_cex :
    sanitize (sanitize brokenOpenDoc) ≠ sanitize brokenOpenDoc := by decide

/-- C5 amended: the sanitizer output never contains the control character,
and—provided no output line contains the doctype-open marker (the only way
one can appear is when removing the control character creates it)—a second
application of the sanitizer returns the output unchanged. -/
theorem C5_amended_idempotence (doc : List Str) :
    (∀ l ∈ sanitize doc, invisibleChar ∉ l)
    ∧ ((∀ l ∈ sanitize doc, containsSeq dtdOpen l = false) →
        sanitize (sanitize doc) = sanitize doc) := by
  refine ⟨preprocess_no_invisible false doc, fun h => ?_⟩
  show preprocess false (sanitize doc) = sanitize doc
  rw [preprocess_false_no_open h]
  exact map_strip_of_no_invisible _ (preprocess_no_invisible false doc)

/-- Closed instance of the amended idempotence theorem on a concrete
document containing the control character. -/
theorem C5_amended_idempotence_witness :
    (∀ l ∈ sanitize [('a' :: invisibleChar :: []), "<!DOCTYPE x [".data, "]>".data, "b".data],
        invisibleChar ∉ l)
    ∧ sanitize (sanitize [('a' :: invisibleChar :: []), "<!DOCTYPE x [".data, "]>".data, "b".data])
      = sanitize [('a' :: invisibleChar :: []), "<!DOCTYPE x [".data, "]>".data, "b".data] :=
  ⟨(C5_amended_idempotence _).1, (C5_amended_idempotence _).2 (by decide)⟩

/-- A key/value attribute mapping in insertion order (a Python dict whose
keys and values are strings). -/
abbrev Dict := List (Str × Str)

/-- `dict.update({k: v})`: replace the value of an existing key in place,
otherwise append a new binding. -/
def dictUpdate (d : Dict) (k v : Str) : Dict :=
  if d.any (fun p => p.1 == k) then
    d.map (fun p => if p.1 = k then (k, v) else p)
  else d ++ [(k, v)]

mutual
/-- A parsed markup element: its attribute mapping and its child elements. -/
inductive XElem : Type where
  | mk : Dict → XForest → XElem
/-- A sequence of sibling elements. -/
inductive XForest : Type where
  | nil : XForest
  | cons : XElem → XForest → XForest
end

/-- `elem.attrib`: the element's current attribute mapping. -/
def XElem.attrib : XElem → Dict
  | .mk a _ => a

/-- One iteration of the metadata loop (lines 72-76): read the child's
current attribute values and merge `{values[0]: values[1]}` into the row
exactly when there are two of them; otherwise leave the row unchanged. -/
def mergeChild (acc : Dict) (c : XElem) : Dict :=
  match c.attrib.map Prod.snd with
  | [v0, v1] => dictUpdate acc v0 v1
  | _ => acc

mutual
/-- The `ET.iterparse(..., events=('end',))` loop of `xml_to_csv` (lines
69-80) run over one element: the children receive their end events first,
in document order; then the element's own end event reads its attribute
mapping, iterates over the children in their current (post-event) state to
merge two-valued metadata entries, appends the result as a row, and clears
the element (`elem.clear()` empties its attributes and children).  Returns
the rows appended within this subtree and the element's cleared state. -/
def endEvents : XElem → List Dict × XElem
  | .mk attrib children =>
    let p := endEventsF children
    (p.1 ++ [p.2.foldl mergeChild attrib], .mk [] .nil)
/-- End events for a forest of siblings, in document order; returns the
appended rows and the siblings' post-event states. -/
def endEventsF : XForest → List Dict × List XElem
  | .nil => ([], [])
  | .cons e es =>
    let a := endEvents e
    let b := endEventsF es
    (a.1 ++ b.1, a.2 :: b.2)
end

mutual
/-- The elements' original attribute mappings, in postorder. -/
def postAttribs : XElem → List Dict
  | .mk a cs => postAttribsF cs ++ [a]
/-- Postorder attribute mappings of a forest. -/
def postAttribsF : XForest → List Dict
  | .nil => []
  | .cons e es => postAttribs e ++ postAttribsF es
end

mutual
/-- The number of elements in a tree. -/
def elemCount : XElem → Nat
  | .mk _ cs => elemCountF cs + 1
/-- The number of elements in a forest. -/
def elemCountF : XForest → Nat
  | .nil => 0
  | .cons e es => elemCount e + elemCountF es
end

/-- After its end event an element is cleared: empty attributes, no
children. -/
theorem endEvents_snd (e : XElem) : (endEvents e).2 = XElem.mk [] XForest.nil := by
  cases e with
  | mk a cs => simp [endEvents]

/-- All post-event sibling states are cleared elements. -/
theorem endEventsF_snd : ∀ (f : XForest), ∀ x ∈ (endEventsF f).2, x = XElem.mk [] XForest.nil
  | .nil => by intro x hx; simp [endEventsF] at hx
  | .cons e es => by
    intro x hx
    simp only [endEventsF, List.mem_cons] at hx
    rcases hx with h | h
    · rw [h]; exact endEvents_snd e
    · exact endEventsF_snd es x h

/-- Merging over cleared children leaves the row unchanged: a cleared
child has no attribute values, so the two-value test always fails. -/
theorem foldl_mergeChild_cleared :
    ∀ (l : List XElem) (a : Dict), (∀ x ∈ l, x = XElem.mk [] XForest.nil) →
      l.foldl mergeChild a = a := by
  intro l
  induction l with
  | nil => intro a _; rfl
  | cons x xs ih =>
    intro a h
    have hx : x = XElem.mk [] XForest.nil := h x (List.mem_cons_self x xs)
    rw [List.foldl_cons, hx]
    exact ih _ (fun y hy => h y (List.mem_cons_of_mem x hy))

mutual
/-- The rows appended by the loop are exactly the elements' own attribute
mappings in postorder: because every child is cleared before its parent's
end event, the metadata merge never contributes anything. -/
theorem endEvents_fst : ∀ (e : XElem), (endEvents e).1 = postAttribs e
  | .mk a cs => by
    simp only [endEvents, postAttribs]
    rw [endEventsF_fst cs, foldl_mergeChild_cleared _ a (endEventsF_snd cs)]
/-- Forest version of `endEvents_fst`. -/
theorem endEventsF_fst : ∀ (f : XForest), (endEventsF f).1 = postAttribsF f
  | .nil => rfl
  | .cons e es => by
    simp only [endEventsF, postAttribsF]
    rw [endEvents_fst e, endEventsF_fst es]
end

mutual
/-- There are as many postorder attribute mappings as elements. -/
theorem postAttribs_length : ∀ (e : XElem), (postAttribs e).length = elemCount e
  | .mk a cs => by
    simp only [postAttribs, elemCount, List.length_append, postAttribsF_length cs,
      List.length_cons, List.length_nil]
/-- Forest version of `postAttribs_length`. -/
theorem postAttribsF_length : ∀ (f : XForest), (postAttribsF f).length = elemCountF f
  | .nil => rfl
  | .cons e es => by
    simp only [postAttribsF, elemCountF, List.length_append, postAttribs_length e,
      postAttribsF_length es]
end

/-- `attribute_list` after the whole `iterparse` loop (line 77): the rows
appended over the document, in end-event order. -/
def rowsOf (doc : XElem) : List Dict := (endEvents doc).1

/-- The produced row list is the postorder list of every element's own
attribute mapping — one row per element of the document, nothing merged. -/
theorem rowsOf_eq_postAttribs (doc : XElem) : rowsOf doc = postAttribs doc :=
  endEvents_fst doc

-- Scratch check: the end-event loop evaluates on concrete documents.
example :
    rowsOf (XElem.mk [(("k".data : Str), ("v".data : Str))]
      (XForest.cons (XElem.mk [("a".data, "1".data)] XForest.nil) XForest.nil))
    = [[("a".data, "1".data)], [("k".data, "v".data)]] := by decide

/-- The column label `type`. -/
def strType : Str := "type".data

/-- The column label `sourceName`. -/
def strSourceName : Str := "sourceName".data

/-- The column label `value`. -/
def strValue : Str := "value".data

/-- The column label `unit`. -/
def strUnit : Str := "unit".data

/-- The column label `startDate`. -/
def strStartDate : Str := "startDate".data

/-- The column label `endDate`. -/
def strEndDate : Str := "endDate".data

/-- The column label `creationDate`. -/
def strCreationDate : Str := "creationDate".data

/-- The long identifier deleted from `type` values first (line 86). -/
def qtyPref : Str := "HKQuantityTypeIdentifier".data

/-- The long identifier deleted from `type` values second (line 87). -/
def catPref : Str := "HKCategoryTypeIdentifier".data

/-- The long identifier deleted from column names (lines 88-89). -/
def charPref : Str := "HKCharacteristicTypeIdentifier".data

/-- First recognized domain-specific metadata column (line 102). -/
def metaColA : Str := "com.loopkit.InsulinKit.MetadataKeyProgrammedTempBasalRate".data

/-- Second recognized domain-specific metadata column (line 106). -/
def metaColB : Str := "com.loopkit.InsulinKit.MetadataKeyScheduledBasalRate".data

/-- Third recognized domain-specific metadata column (line 110). -/
def metaColC : Str := "com.loudnate.CarbKit.HKMetadataKey.AbsorptionTimeMinutes".data

/-- `shifted_cols` before the conditional appends (lines 93-99). -/
def priorityCols : List Str :=
  [strType, strSourceName, strValue, strUnit, strStartDate, strEndDate, strCreationDate]

/-- The three recognized metadata columns, in the order they are checked. -/
def loopMetaCols : List Str := [metaColA, metaColB, metaColC]

/-- Dictionary lookup (first binding wins; dict keys are unique). -/
def dictGet : Dict → Str → Option Str
  | [], _ => none
  | (k, v) :: rest, key => if k = key then some v else dictGet rest key

/-- The union of the rows' keys in first-seen order: the column order
`pd.DataFrame` gives a list of dicts (line 82). -/
def unionKeys (rows : List Dict) : List Str :=
  rows.foldl (fun acc r => r.foldl (fun a p => if p.1 ∈ a then a else a ++ [p.1]) acc) []

/-- Index of the first occurrence of a label; the length when absent. -/
def idxOf : List Str → Str → Nat
  | [], _ => 0
  | c :: rest, key => if c = key then 0 else idxOf rest key + 1

/-- Worker for `removeAll`, structurally recursive on a fuel argument so
that it evaluates in the kernel; the fuel starts at the string's length,
which the scan never exhausts since every step consumes at least one
character. -/
def removeAllAux (pat : Str) : Nat → Str → Str
  | _, [] => []
  | 0, l => l
  | fuel + 1, c :: rest =>
    if (!pat.isEmpty) && isPrefixB pat (c :: rest) then
      removeAllAux pat fuel (rest.drop (pat.length - 1))
    else c :: removeAllAux pat fuel rest

/-- Python `s.replace(pat, "")`: delete every occurrence of the literal
pattern, scanning left to right without overlap. -/
def removeAll (pat : Str) (s : Str) : Str := removeAllAux pat s.length s

-- Scratch checks of the prefix deletion.
example : removeAll qtyPref "HKQuantityTypeIdentifierBodyMass".data = "BodyMass".data := by
  decide
example : removeAll "ab".data "xababy".data = "xy".data := by decide

/-- A pandas data frame of string cells: column labels plus rows of cells
aligned positionally with the labels; a missing value (`NaN`) is `none`. -/
structure DF where
  cols : List Str
  rows : List (List (Option Str))
deriving DecidableEq

/-- Lines 86-87: `health_df.type = health_df.type.str.replace(...)`
twice.  Attribute access on a missing column raises `AttributeError`
(hence `none`); otherwise the two long type identifiers are deleted from
every value of the `type` column, `NaN` cells staying `NaN`. -/
def typeStep (cols : List Str) (data : List (List (Option Str))) :
    Option (List (List (Option Str))) :=
  if strType ∈ cols then
    some (data.map (fun r =>
      r.set (idxOf cols strType)
        ((r.getD (idxOf cols strType) none).map
          (fun s => removeAll catPref (removeAll qtyPref s)))))
  else none

/-- Line 116 `reindex(labels=..., axis='columns')` on one row: each target
label takes the cell of the like-named existing column, and `NaN` when no
existing column has that name. -/
def reindexRow (cols target : List Str) (r : List (Option Str)) : List (Option Str) :=
  target.map (fun c => r.getD (idxOf cols c) none)

/-- Python string `<=`: lexicographic comparison by character code. -/
def lexLe : Str → Str → Bool
  | [], _ => true
  | _ :: _, [] => false
  | a :: as, b :: bs => if a < b then true else if b < a then false else lexLe as bs

/-- The row order of `sort_values(by='startDate', ascending=False)`
(line 119): larger strings first, missing values (`NaN`) last. -/
def keyLe : Option Str → Option Str → Bool
  | some a, some b => lexLe b a
  | some _, none => true
  | none, some _ => false
  | none, none => true

/-- Insertion into a sorted list. -/
def insertLe {α : Type} (le : α → α → Bool) (x : α) : List α → List α
  | [] => [x]
  | y :: ys => if le x y then x :: y :: ys else y :: insertLe le x ys

/-- Insertion sort (a sort consistent with the source's; the source's
sorting algorithm is unspecified on ties and no claim depends on them). -/
def sortLe {α : Type} (le : α → α → Bool) : List α → List α
  | [] => []
  | x :: xs => insertLe le x (sortLe le xs)

/-- The columns of `pd.DataFrame(attribute_list)` (line 82). -/
def cols0 (doc : XElem) : List Str := unionKeys (rowsOf doc)

/-- The cell grid of `pd.DataFrame(attribute_list)`: one row per appended
dict, one cell per column, `NaN` where the dict lacks the key. -/
def data0 (doc : XElem) : List (List (Option Str)) :=
  (rowsOf doc).map (fun r => (cols0 doc).map (fun c => dictGet r c))

/-- The column labels after the rename of lines 88-89. -/
def renCols (doc : XElem) : List Str := (cols0 doc).map (removeAll charPref)

/-- `shifted_cols` after the three conditional appends (lines 93-112). -/
def shiftedCols (doc : XElem) : List Str :=
  priorityCols ++ loopMetaCols.filter (fun m => m ∈ renCols doc)

/-- `reordered_cols = shifted_cols + remaining_cols` (lines 114-115); the
set difference's iteration order is unspecified in the source, modelled
here as the first-seen order of the remaining labels. -/
def reorderedCols (doc : XElem) : List Str :=
  shiftedCols doc ++ (renCols doc).filter (fun c => c ∉ shiftedCols doc)

/-- The sort key of a row: its cell in position `i` (the `startDate`
column). -/
def rowKey (i : Nat) (r : List (Option Str)) : Option Str := r.getD i none

/-- `xml_to_csv` (lines 59-123) after the `iterparse` loop: build the
frame, delete the type identifiers (`AttributeError` — `none` — when no
`type` column exists), rename the columns, reorder them via `reindex`
(which raises — `none` — on a duplicate column axis and materializes
missing labels as `NaN` columns), and sort the rows by `startDate`
descending, missing values last. -/
def xmlToCsv (doc : XElem) : Option DF :=
  match typeStep (cols0 doc) (data0 doc) with
  | none => none
  | some data1 =>
    if (renCols doc).Nodup then
      some ⟨reorderedCols doc,
        sortLe (fun r1 r2 =>
            keyLe (rowKey (idxOf (reorderedCols doc) strStartDate) r1)
              (rowKey (idxOf (reorderedCols doc) strStartDate) r2))
          (data1.map (reindexRow (renCols doc) (reorderedCols doc)))⟩
    else none

/-- A one-element forest. -/
def forest1 (e : XElem) : XForest := XForest.cons e XForest.nil

/-- A two-element forest. -/
def forest2 (e1 e2 : XElem) : XForest := XForest.cons e1 (XForest.cons e2 XForest.nil)

/-- A three-element forest. -/
def forest3 (e1 e2 e3 : XElem) : XForest := XForest.cons e1 (forest2 e2 e3)

-- Scratch check of the whole pipeline on a one-record document.
example :
    (xmlToCsv (XElem.mk []
        (forest1 (XElem.mk [(strType, "HKQuantityTypeIdentifierBodyMass".data),
          (strStartDate, "2023-01-02".data)] XForest.nil)))).map DF.cols
      = some priorityCols := by decide

example :
    (xmlToCsv (XElem.mk []
        (forest1 (XElem.mk [(strType, "HKQuantityTypeIdentifierBodyMass".data),
          (strStartDate, "2023-01-02".data)] XForest.nil)))).map DF.rows
      = some [[some "BodyMass".data, none, none, none, some "2023-01-02".data, none, none],
          [none, none, none, none, none, none, none]] := by decide

/-- Inserting permutes: the sorted insert adds exactly the new row. -/
theorem insertLe_perm {α : Type} (le : α → α → Bool) (x : α) :
    ∀ (l : List α), (insertLe le x l).Perm (x :: l)
  | [] => List.Perm.refl _
  | y :: ys => by
    unfold insertLe
    by_cases h : le x y = true
    · rw [if_pos h]
    · rw [if_neg h]
      exact ((insertLe_perm le x ys).cons y).trans (List.Perm.swap x y ys)

/-- The sort is a permutation of its input. -/
theorem sortLe_perm {α : Type} (le : α → α → Bool) :
    ∀ (l : List α), (sortLe le l).Perm l
  | [] => List.Perm.refl _
  | x :: xs => by
    unfold sortLe
    exact (insertLe_perm le x _).trans ((sortLe_perm le xs).cons x)

/-- Sorting preserves the number of rows. -/
theorem sortLe_length {α : Type} (le : α → α → Bool) (l : List α) :
    (sortLe le l).length = l.length :=
  (sortLe_perm le l).length_eq

/-- Inserting into a sorted list keeps it sorted, for a total transitive
comparison. -/
theorem insertLe_pairwise {α : Type} {le : α → α → Bool}
    (htot : ∀ a b, le a b = true ∨ le b a = true)
    (htrans : ∀ a b c, le a b = true → le b c = true → le a c = true)
    (x : α) : ∀ {l : List α}, l.Pairwise (fun a b => le a b = true) →
      (insertLe le x l).Pairwise (fun a b => le a b = true) := by
  intro l
  induction l with
  | nil => intro _; simp [insertLe]
  | cons y ys ih =>
    intro h
    rcases List.pairwise_cons.mp h with ⟨hy, hys⟩
    unfold insertLe
    by_cases hxy : le x y = true
    · rw [if_pos hxy]
      refine List.pairwise_cons.mpr ⟨?_, h⟩
      intro z hz
      rcases List.mem_cons.mp hz with rfl | hz
      · exact hxy
      · exact htrans x y z hxy (hy z hz)
    · rw [if_neg hxy]
      have hyx : le y x = true := (htot x y).resolve_left hxy
      refine List.pairwise_cons.mpr ⟨?_, ih hys⟩
      intro z hz
      rcases List.mem_cons.mp ((insertLe_perm le x ys).mem_iff.mp hz) with rfl | hz
      · exact hyx
      · exact hy z hz

/-- The sort output is sorted, for a total transitive comparison. -/
theorem sortLe_pairwise {α : Type} {le : α → α → Bool}
    (htot : ∀ a b, le a b = true ∨ le b a = true)
    (htrans : ∀ a b c, le a b = true → le b c = true → le a c = true) :
    ∀ (l : List α), (sortLe le l).Pairwise (fun a b => le a b = true)
  | [] => List.Pairwise.nil
  | x :: xs => insertLe_pairwise htot htrans x (sortLe_pairwise htot htrans xs)

/-- The lexicographic comparison is total. -/
theorem lexLe_total : ∀ (a b : Str), lexLe a b = true ∨ lexLe b a = true
  | [], _ => Or.inl rfl
  | _ :: _, [] => Or.inr rfl
  | a :: as, b :: bs => by
    unfold lexLe
    rcases lt_trichotomy a b with h1 | h1 | h1
    · left; rw [if_pos h1]
    · subst h1
      simp only [if_neg (lt_irrefl a)]
      exact lexLe_total as bs
    · right; rw [if_pos h1]

/-- The lexicographic comparison is transitive. -/
theorem lexLe_trans : ∀ (a b c : Str), lexLe a b = true → lexLe b c = true → lexLe a c = true
  | [], _, _, _, _ => rfl
  | _ :: _, [], _, hab, _ => by simp [lexLe] at hab
  | _ :: _, _ :: _, [], _, hbc => by simp [lexLe] at hbc
  | a :: as, b :: bs, c :: cs, hab, hbc => by
    unfold lexLe at hab hbc ⊢
    rcases lt_trichotomy a b with h1 | h1 | h1
    · rcases lt_trichotomy b c with h2 | h2 | h2
      · rw [if_pos (lt_trans h1 h2)]
      · subst h2; rw [if_pos h1]
      · rw [if_neg (lt_asymm h2), if_pos h2] at hbc
        exact absurd hbc (by simp)
    · subst h1
      rcases lt_trichotomy a c with h2 | h2 | h2
      · rw [if_pos h2]
      · subst h2
        simp only [if_neg (lt_irrefl a)] at hab hbc ⊢
        exact lexLe_trans as bs cs hab hbc
      · rw [if_neg (lt_asymm h2), if_pos h2] at hbc
        exact absurd hbc (by simp)
    · rw [if_neg (lt_asymm h1), if_pos h1] at hab
      exact absurd hab (by simp)

/-- The row-key order (descending, missing last) is total. -/
theorem keyLe_total : ∀ (a b : Option Str), keyLe a b = true ∨ keyLe b a = true
  | some a, some b => (lexLe_total b a).imp id id
  | some _, none => Or.inl rfl
  | none, some _ => Or.inr rfl
  | none, none => Or.inl rfl

/-- The row-key order (descending, missing last) is transitive. -/
theorem keyLe_trans :
    ∀ (a b c : Option Str), keyLe a b = true → keyLe b c = true → keyLe a c = true
  | some _, some _, some _, hab, hbc => lexLe_trans _ _ _ hbc hab
  | some _, some _, none, _, _ => rfl
  | some _, none, some _, _, hbc => by simp [keyLe] at hbc
  | some _, none, none, _, _ => rfl
  | none, some _, _, hab, _ => by simp [keyLe] at hab
  | none, none, some _, _, hbc => by simp [keyLe] at hbc
  | none, none, none, _, _ => rfl

/-- Inversion of a successful `xml_to_csv` run: the column labels are the
reordered ones and the rows are the sorted reindexed rows of the
type-rewritten frame. -/
theorem xmlToCsv_some_elim {doc : XElem} {df : DF} (h : xmlToCsv doc = some df) :
    (renCols doc).Nodup ∧ df.cols = reorderedCols doc
    ∧ ∃ data1, typeStep (cols0 doc) (data0 doc) = some data1
      ∧ df.rows = sortLe (fun r1 r2 =>
            keyLe (rowKey (idxOf (reorderedCols doc) strStartDate) r1)
              (rowKey (idxOf (reorderedCols doc) strStartDate) r2))
          (data1.map (reindexRow (renCols doc) (reorderedCols doc))) := by
  unfold xmlToCsv at h
  split at h
  · exact absurd h (by simp)
  · next data1 hts =>
    split at h
    · next hnd =>
      injection h with h
      subst h
      exact ⟨hnd, rfl, data1, hts, rfl⟩
    · exact absurd h (by simp)

/-- Inversion of the type-rewrite step: it succeeds exactly on frames with
a `type` column and rewrites every row's `type` cell. -/
theorem typeStep_some_elim {cols : List Str} {data d1 : List (List (Option Str))}
    (h : typeStep cols data = some d1) :
    strType ∈ cols ∧ d1 = data.map (fun r =>
      r.set (idxOf cols strType)
        ((r.getD (idxOf cols strType) none).map
          (fun s => removeAll catPref (removeAll qtyPref s)))) := by
  unfold typeStep at h
  split at h
  · next hm => exact ⟨hm, by injection h with h; exact h.symm⟩
  · exact absurd h (by simp)

/-- The type-rewrite step succeeds whenever a `type` column exists. -/
theorem typeStep_pos {cols : List Str} (hm : strType ∈ cols)
    (data : List (List (Option Str))) :
    typeStep cols data = some (data.map (fun r =>
      r.set (idxOf cols strType)
        ((r.getD (idxOf cols strType) none).map
          (fun s => removeAll catPref (removeAll qtyPref s))))) := by
  unfold typeStep
  rw [if_pos hm]

/-- `idxOf` finds its label. -/
theorem idxOf_getElem : ∀ {l : List Str} {c : Str}, c ∈ l → l[idxOf l c]? = some c := by
  intro l
  induction l with
  | nil => intro c hc; simp at hc
  | cons x xs ih =>
    intro c hc
    unfold idxOf
    by_cases hx : x = c
    · rw [if_pos hx]
      simp [hx]
    · rw [if_neg hx]
      have hcs : c ∈ xs := by
        rcases List.mem_cons.mp hc with h | h
        · exact absurd h.symm hx
        · exact h
      rw [List.getElem?_cons_succ]
      exact ih hcs

/-- `idxOf` of an absent label is the length. -/
theorem idxOf_eq_length : ∀ {l : List Str} {c : Str}, c ∉ l → idxOf l c = l.length := by
  intro l
  induction l with
  | nil => intro c _; rfl
  | cons x xs ih =>
    intro c hc
    unfold idxOf
    rw [if_neg (fun h => hc (by rw [← h]; exact List.mem_cons_self x xs)),
      ih (fun h => hc (List.mem_cons_of_mem x h)), List.length_cons]

/-- Every row of the initial frame has one cell per column. -/
theorem data0_row_length {doc : XElem} {r : List (Option Str)} (hr : r ∈ data0 doc) :
    r.length = (cols0 doc).length := by
  unfold data0 at hr
  rcases List.mem_map.mp hr with ⟨d, _, rfl⟩
  simp

/-- The renamed column labels are as many as the original ones. -/
theorem renCols_length (doc : XElem) : (renCols doc).length = (cols0 doc).length := by
  unfold renCols
  exact List.length_map _ _

/-- Rows of the type-rewritten frame still have one cell per column. -/
theorem data1_row_length {doc : XElem} {data1 : List (List (Option Str))}
    (hts : typeStep (cols0 doc) (data0 doc) = some data1)
    {r : List (Option Str)} (hr : r ∈ data1) : r.length = (renCols doc).length := by
  rcases typeStep_some_elim hts with ⟨_, hd⟩
  subst hd
  rcases List.mem_map.mp hr with ⟨r0, hr0, rfl⟩
  rw [List.length_set, data0_row_length hr0, renCols_length]

/-- A reordered column absent from the renamed labels holds an empty cell
(`NaN`) in every row of the result: `reindex` materializes it. -/
theorem absent_col_cells {doc : XElem} {df : DF} (h : xmlToCsv doc = some df)
    {c : Str} (hc : c ∈ reorderedCols doc) (habs : c ∉ renCols doc) :
    ∀ r ∈ df.rows, r[idxOf df.cols c]? = some none := by
  rcases xmlToCsv_some_elim h with ⟨_, hcols, data1, hts, hrows⟩
  intro r hr
  rw [hrows] at hr
  have hr2 : r ∈ data1.map (reindexRow (renCols doc) (reorderedCols doc)) :=
    (sortLe_perm _ _).mem_iff.mp hr
  rcases List.mem_map.mp hr2 with ⟨r1, hr1, rfl⟩
  rw [hcols]
  unfold reindexRow
  rw [List.getElem?_map, idxOf_getElem hc, Option.map_some']
  have hlen : r1.length ≤ idxOf (renCols doc) c := by
    rw [idxOf_eq_length habs, data1_row_length hts hr1]
  rw [List.getD_eq_getElem?_getD, List.getElem?_eq_none hlen]
  rfl

/-- The number of elements in a forest's top level. -/
def forestLen : XForest → Nat
  | .nil => 0
  | .cons _ es => forestLen es + 1

/-- The number of direct children of the document root — the claims' count
of top-level Record elements. -/
def topLevelCount : XElem → Nat
  | .mk _ cs => forestLen cs

/-- A cleaned document whose root owns a single Record (type `T`) carrying
two MetadataEntry children. -/
def docC1 : XElem :=
  XElem.mk []
    (forest1 (XElem.mk [(strType, "T".data)]
      (forest2
        (XElem.mk [("key".data, "Foo".data), ("value".data, "42".data)] XForest.nil)
        (XElem.mk [("key".data, "Bar".data), ("value".data, "7".data)] XForest.nil))))

/-- C1 counterexample: on a document with exactly one top-level Record
(carrying two MetadataEntry children) the produced Table has four rows —
one per element end event: each MetadataEntry, the Record, and the root
element itself — not one row per top-level Record. -/
theorem C1_row_count_cex :
    (xmlToCsv docC1).map (fun df => df.rows.length) = some 4
    ∧ topLevelCount docC1 = 1 := by decide

/-- C1 amended: the Table contains exactly one row per element of the
cleaned document — the root element and every nested MetadataEntry
included — so the row count equals the total element count. -/
theorem C1_amended_row_count (doc : XElem) (df : DF) (h : xmlToCsv doc = some df) :
    df.rows.length = elemCount doc := by
  rcases xmlToCsv_some_elim h with ⟨_, _, data1, hts, hrows⟩
  rw [hrows, sortLe_length, List.length_map]
  rcases typeStep_some_elim hts with ⟨_, hd⟩
  subst hd
  rw [List.length_map]
  unfold data0
  rw [List.length_map, rowsOf_eq_postAttribs, postAttribs_length]

/-- Closed instance of the amended row-count theorem. -/
theorem C1_amended_row_count_witness :
    (DF.mk priorityCols [[some "a".data, none, none, none, none, none, none],
        [none, none, none, none, none, none, none]]).rows.length
      = elemCount (XElem.mk [] (forest1 (XElem.mk [(strType, "a".data)] XForest.nil))) :=
  C1_amended_row_count _ _ (by decide)

/-- A document with one Record (type `T`) owning one MetadataEntry whose
two attribute values are `Foo` and `42`. -/
def docC2 : XElem :=
  XElem.mk []
    (forest1 (XElem.mk [(strType, "T".data)]
      (forest1 (XElem.mk [("key".data, "Foo".data), ("value".data, "42".data)]
        XForest.nil))))

/-- C2: the metadata merge never happens.  On `docC2` the appended rows
are the MetadataEntry's own attribute mapping, the Record's unchanged
attribute mapping, and the root's empty one; no row holds a field `Foo`,
because every child is cleared before its parent's end event, so the
two-value test always sees an empty attribute mapping. -/
theorem C2_metadata_merge_dead :
    rowsOf docC2
      = [[("key".data, "Foo".data), ("value".data, "42".data)], [(strType, "T".data)], []]
    ∧ (∀ r ∈ rowsOf docC2, dictGet r "Foo".data = none) := by decide

/-- A document with one Record (type `T`, a start date) owning one
MetadataEntry whose two attribute values are `Foo` and `42`. -/
def docC3 : XElem :=
  XElem.mk []
    (forest1 (XElem.mk [(strType, "T".data), (strStartDate, "2023".data)]
      (forest1 (XElem.mk [("key".data, "Foo".data), ("value".data, "42".data)]
        XForest.nil))))

/-- C3: `Foo`, the first attribute value of a well-formed two-value
MetadataEntry, is not a column of the final Table: the Table's columns on
`docC3` are the seven priority labels plus `key` (the MetadataEntry's
attribute *names* become columns, never its values). -/
theorem C3_metadata_column_missing :
    (xmlToCsv docC3).map DF.cols = some (priorityCols ++ ["key".data])
    ∧ "Foo".data ∉ priorityCols ++ ["key".data] := by decide

/-- A Record of type `T` with the given start date and no children. -/
def recC6 (d : Str) : XElem := XElem.mk [(strType, "T".data), (strStartDate, d)] XForest.nil

/-- A document with three Records whose start dates are `2023-01-02`,
`2023-01-10` and `2023-01-01`, in that document order. -/
def docC6 : XElem :=
  XElem.mk []
    (forest3 (recC6 "2023-01-02".data) (recC6 "2023-01-10".data) (recC6 "2023-01-01".data))

/-- C6: the flattener orders the rows descending by the raw string value
of the `startDate` field under lexicographic comparison (missing values
last); in particular the three dates `2023-01-02`, `2023-01-10`,
`2023-01-01` come out as `2023-01-10`, `2023-01-02`, `2023-01-01`
(followed by the root's row, which has no start date). -/
theorem C6_sort_descending :
    (∀ (doc : XElem) (df : DF), xmlToCsv doc = some df →
      df.rows.Pairwise (fun r1 r2 =>
        keyLe (rowKey (idxOf df.cols strStartDate) r1)
          (rowKey (idxOf df.cols strStartDate) r2) = true))
    ∧ (xmlToCsv docC6).map (fun df => df.rows.map (rowKey (idxOf df.cols strStartDate)))
      = some [some "2023-01-10".data, some "2023-01-02".data, some "2023-01-01".data,
          none] := by
  constructor
  · intro doc df h
    rcases xmlToCsv_some_elim h with ⟨_, hcols, _, _, hrows⟩
    rw [hrows, hcols]
    exact sortLe_pairwise
      (fun a b => keyLe_total (rowKey (idxOf (reorderedCols doc) strStartDate) a)
        (rowKey (idxOf (reorderedCols doc) strStartDate) b))
      (fun a b c hab hbc => keyLe_trans _ _ _ hab hbc) _
  · decide

/-- Closed instance of the sort-order theorem. -/
theorem C6_sort_descending_witness :
    (DF.mk priorityCols [[some "b".data, none, none, none, none, none, none],
        [none, none, none, none, none, none, none]]).rows.Pairwise (fun r1 r2 =>
      keyLe (rowKey (idxOf (DF.mk priorityCols [[some "b".data, none, none, none, none,
          none, none], [none, none, none, none, none, none, none]]).cols strStartDate) r1)
        (rowKey (idxOf (DF.mk priorityCols [[some "b".data, none, none, none, none, none,
          none], [none, none, none, none, none, none, none]]).cols strStartDate) r2)
        = true) :=
  C6_sort_descending.1 (XElem.mk [] (forest1 (XElem.mk [(strType, "b".data)] XForest.nil)))
    _ (by decide)

/-- Every priority label is among the reordered columns. -/
theorem priority_mem_reordered {c : Str} (hc : c ∈ priorityCols) (doc : XElem) :
    c ∈ reorderedCols doc := by
  unfold reorderedCols shiftedCols
  exact List.mem_append_left _ (List.mem_append_left _ hc)

/-- A document whose only Record carries a start date but no `type`
attribute (and no element anywhere has one). -/
def docC7 : XElem :=
  XElem.mk [] (forest1 (XElem.mk [(strStartDate, "2023".data)] XForest.nil))

/-- C7 counterexample: when no element of the document carries a `type`
attribute the flattener does not return a Table: the attribute access
`health_df.type` on a frame without a `type` column raises
`AttributeError` (modelled as `none`). -/
theorem C7_missing_type_raises : xmlToCsv docC7 = none := by decide

/-- C7 amended: whenever some element carries a `type` attribute (and the
renamed labels are duplicate-free, as they always are in practice), the
flattener returns a Table without raising even when other expected
priority columns — `startDate`, `creationDate`, … — appear in no Record:
those absent fields become empty cells. -/
theorem C7_amended_graceful (doc : XElem)
    (ht : strType ∈ cols0 doc) (hnd : (renCols doc).Nodup) :
    ∃ df, xmlToCsv doc = some df
      ∧ ∀ c ∈ priorityCols, c ∉ renCols doc →
          ∀ r ∈ df.rows, r[idxOf df.cols c]? = some none := by
  have hsome : ∃ df, xmlToCsv doc = some df := by
    unfold xmlToCsv
    simp only [typeStep_pos ht, if_pos hnd]
    exact ⟨_, rfl⟩
  rcases hsome with ⟨df, hdf⟩
  exact ⟨df, hdf, fun c hc habs =>
    absent_col_cells hdf (priority_mem_reordered hc doc) habs⟩

/-- Closed instance of the graceful-degradation theorem. -/
theorem C7_amended_graceful_witness :
    ∃ df, xmlToCsv (XElem.mk [] (forest1 (XElem.mk [(strType, "c".data)] XForest.nil)))
        = some df
      ∧ ∀ c ∈ priorityCols,
          c ∉ renCols (XElem.mk [] (forest1 (XElem.mk [(strType, "c".data)] XForest.nil))) →
          ∀ r ∈ df.rows, r[idxOf df.cols c]? = some none :=
  C7_amended_graceful _ (by decide) (by decide)

/-- A document whose only Record supplies the fields `type` and
`startDate`; `sourceName` (among others) appears in no element. -/
def docC8 : XElem :=
  XElem.mk []
    (forest1 (XElem.mk [(strType, "T".data), (strStartDate, "2023".data)] XForest.nil))

/-- C8 counterexample: on `docC8` the Table's columns are all seven
priority labels in order, although `sourceName` (in particular) appears in
no row's fields: the second column is `sourceName`, not the next *present*
priority label `startDate`. -/
theorem C8_absent_priority_cols_cex :
    (xmlToCsv docC8).map DF.cols = some priorityCols
    ∧ strSourceName ∉ cols0 docC8 ∧ strStartDate ∈ cols0 docC8 := by decide

/-- C8 amended: the Table's column order begins with all seven priority
labels `type, sourceName, value, unit, startDate, endDate, creationDate`
(absent ones materialized as empty columns, not skipped), followed by each
of the three recognized metadata labels that exists among the renamed
columns (each checked independently), followed by exactly the remaining
renamed columns. -/
theorem C8_amended_column_order (doc : XElem) (df : DF) (h : xmlToCsv doc = some df) :
    ∃ rest, df.cols = priorityCols
        ++ loopMetaCols.filter (fun m => m ∈ renCols doc) ++ rest
      ∧ ∀ c : Str, c ∈ rest ↔ c ∈ renCols doc ∧ c ∉ priorityCols ∧ c ∉ loopMetaCols := by
  rcases xmlToCsv_some_elim h with ⟨_, hcols, _⟩
  refine ⟨(renCols doc).filter (fun c => c ∉ shiftedCols doc), ?_, ?_⟩
  · rw [hcols]
    unfold reorderedCols shiftedCols
    rw [List.append_assoc]
  · intro c
    simp only [List.mem_filter, decide_eq_true_eq]
    constructor
    · rintro ⟨hmem, hns⟩
      refine ⟨hmem, fun hp => hns ?_, fun hm => hns ?_⟩
      · unfold shiftedCols
        exact List.mem_append_left _ hp
      · unfold shiftedCols
        exact List.mem_append_right _ (List.mem_filter.mpr ⟨hm, by simpa using hmem⟩)
    · rintro ⟨hmem, hp, hm⟩
      refine ⟨hmem, fun hs => ?_⟩
      unfold shiftedCols at hs
      rcases List.mem_append.mp hs with h1 | h1
      · exact hp h1
      · exact hm (List.mem_filter.mp h1).1

/-- Closed instance of the amended column-order theorem. -/
theorem C8_amended_column_order_witness :
    ∃ rest, (DF.mk priorityCols [[some "d".data, none, none, none, none, none, none],
          [none, none, none, none, none, none, none]]).cols
        = priorityCols ++ loopMetaCols.filter (fun m =>
            m ∈ renCols (XElem.mk []
              (forest1 (XElem.mk [(strType, "d".data)] XForest.nil)))) ++ rest
      ∧ ∀ c : Str, c ∈ rest ↔
          c ∈ renCols (XElem.mk [] (forest1 (XElem.mk [(strType, "d".data)] XForest.nil)))
          ∧ c ∉ priorityCols ∧ c ∉ loopMetaCols :=
  C8_amended_column_order _ _ (by decide)

/-- C10: a Table the flattener completes always carries all seven priority
labels as columns — those supplied by no row included, materialized by the
reorder's `reindex` as columns of empty cells. -/
theorem C10_priority_cols_always (doc : XElem) (df : DF) (h : xmlToCsv doc = some df) :
    (∀ c ∈ priorityCols, c ∈ df.cols)
    ∧ ∀ c ∈ priorityCols, c ∉ renCols doc →
        ∀ r ∈ df.rows, r[idxOf df.cols c]? = some none := by
  rcases xmlToCsv_some_elim h with ⟨_, hcols, _⟩
  constructor
  · intro c hc
    rw [hcols]
    exact priority_mem_reordered hc doc
  · intro c hc habs
    exact absent_col_cells h (priority_mem_reordered hc doc) habs

/-- Closed instance of the always-present priority-columns theorem. -/
theorem C10_priority_cols_always_witness :
    ((∀ c ∈ priorityCols,
        c ∈ (DF.mk priorityCols [[some "e".data, none, none, none, none, none, none],
          [none, none, none, none, none, none, none]]).cols)
    ∧ ∀ c ∈ priorityCols,
        c ∉ renCols (XElem.mk [] (forest1 (XElem.mk [(strType, "e".data)] XForest.nil))) →
        ∀ r ∈ (DF.mk priorityCols [[some "e".data, none, none, none, none, none, none],
            [none, none, none, none, none, none, none]]).rows,
          r[idxOf (DF.mk priorityCols [[some "e".data, none, none, none, none, none, none],
            [none, none, none, none, none, none, none]]).cols c]? = some none) :=
  C10_priority_cols_always _ _ (by decide)

end AppleHealth
